import Mathlib

/-!
Verification development for the caster production scheduler of the
`swynix-mes` repository.

The scheduler lives in three Python modules:

* `swynix_mes/swynix_mes/doctype/ppc_casting_plan/ppc_casting_plan.py`
  (the `PPC Casting Plan` document controller, its validation hooks and the
  cascading re-stack `shift_future_plans_after`);
* `swynix_mes/swynix_mes/api/ppc_caster_kiosk.py`
  (the kiosk API: `preview_plan_insertion`, `create_plan`, the uniform
  shifter `shift_future_plans`, `compute_shift_window_and_delta`,
  `ensure_no_overlap_with_locked`);
* `swynix_mes/swynix_mes/utils/ppc_scheduler.py`
  (`shift_future_plans_for_caster`, the uniform shifter that skips plans
  whose linked Melting Batch has left its Draft state), together with
  `mark_melting_started_if_first_time` in
  `swynix_mes/swynix_mes/doctype/melting_batch/melting_batch.py`.

Modelling conventions (shallow embedding):

* Timestamps are integers (minutes).  The datetime arithmetic of the source
  (`timedelta(minutes=...)`, subtraction of datetimes) is plain integer
  arithmetic at that granularity; thus `duration_minutes` truncation never
  loses sub-minute residues in the model.
* A database of `PPC Casting Plan` documents is a `List Plan`; `name` is the
  primary key (theorems that need it carry a `Nodup` hypothesis).  The
  `caster` / `casting_workstation` columns both denote the owning
  workstation and are modelled by the single field `caster`.
* `frappe.get_all(..., order_by="start_datetime asc")` is modelled by a
  stable insertion sort on `start_datetime` applied to the filtered list.
* Fields the scheduler never reads (product data, widths, remarks, ...) are
  omitted; validations that only concern such fields (item-group checks,
  workstation-type checks) are likewise omitted from the document
  `validate` model.  The parts of `validate` the scheduler's claims depend
  on — datetime-range check, `set_planned_duration` and
  `check_caster_overlap` — are modelled in full.
* `doc.save()` runs `validate` and aborts the whole request on
  `frappe.throw` (the surrounding transaction rolls back, so an aborted
  operation leaves the timeline unchanged).  The model runs the modelled
  `validate` for the single re-anchored / completed document of each
  lifecycle operation, where the claims depend on it.  For the bulk
  shifters the per-row re-validation is not modelled: `shift_future_plans`
  writes through `frappe.db.set_value`, which runs no validation at all in
  the source, and for the `doc.save()`-based shifters a throw can only
  abort the transaction, never change the windows that a completed run
  writes.  The `set_planned_duration` side effect of a successful save is
  modelled, since it mutates `planned_duration_minutes`.
* Python truthiness of `planned_duration_minutes` (`None` and `0` are
  falsy) is modelled on `Option Int`: `none` and `some 0` select the
  fallback duration.
-/

/-- Status of a `PPC Casting Plan` (`status` select field). -/
inductive PlanStatus where
  | planned
  | released
  | melting
  | metalReady
  | casting
  | coilsComplete
  | notProduced
deriving DecidableEq, Repr

/-- Status of a `Melting Batch` (`status` select field). -/
inductive BatchStatus where
  | draft
  | charging
  | meltingHeat
  | readyForTransfer
  | transferred
  | scrapped
deriving DecidableEq, Repr

/-- A `PPC Casting Plan` document, restricted to the fields the scheduler
reads or writes. -/
structure Plan where
  name : Nat
  caster : Nat
  start_datetime : Int
  end_datetime : Int
  planned_duration_minutes : Option Int
  status : PlanStatus
  docstatus : Nat
  melting_batch : Option Nat
  actual_start : Option Int
  actual_end : Option Int
  melting_start : Option Int
deriving DecidableEq, Repr

/-- A `Melting Batch` document, restricted to the fields the scheduler and
the cancellation guard read. -/
structure Batch where
  name : Nat
  status : BatchStatus
  docstatus : Nat
  raw_materials : Nat
  process_logs : Nat
  spectro_samples : Nat
  ppc_casting_plan : Option Nat
deriving DecidableEq, Repr

deriving instance DecidableEq for Except

/-- Membership in `SHIFTABLE_STATUSES` of `ppc_casting_plan.py` (line 12): only
`"Planned"`. -/
def ppcShiftable (s : PlanStatus) : Bool := s = .planned

/-- Membership in `LOCKED_STATUSES` of `ppc_casting_plan.py` (line 14): `"Melting"`,
`"Metal Ready"`, `"Casting"`, `"Coils Complete"` (note: `"Not Produced"` is
absent from this list). -/
def ppcLocked (s : PlanStatus) : Bool :=
  s = .melting ∨ s = .metalReady ∨ s = .casting ∨ s = .coilsComplete

/-- Membership in `SHIFTABLE_STATUSES` of `ppc_caster_kiosk.py` (line 12): `"Planned"`,
`"Released"`; identical to `MOVABLE_STATUSES` of `ppc_scheduler.py`. -/
def kioskShiftable (s : PlanStatus) : Bool := s = .planned ∨ s = .released

/-- Membership in `LOCKED_STATUSES` of `ppc_caster_kiosk.py` (line 14) and of
`ppc_scheduler.py`: the four in-production statuses plus
`"Not Produced"`. -/
def kioskLocked (s : PlanStatus) : Bool :=
  s = .melting ∨ s = .metalReady ∨ s = .casting ∨ s = .coilsComplete ∨
    s = .notProduced

/-- Half-open interval overlap `[s₁, e₁) ∩ [s₂, e₂) ≠ ∅` as used by
`ensure_no_overlap_with_locked` (`start_dt < e and end_dt > s`). -/
def intervalsOverlap (s₁ e₁ s₂ e₂ : Int) : Bool :=
  s₁ < e₂ ∧ s₂ < e₁

/-- The three-disjunct overlap condition of the raw SQL in
`check_caster_overlap` (`ppc_casting_plan.py` lines 264-268 and 303-307),
comparing a stored row `[s, e)` against the saved document's window
`[S, E)`. -/
def sqlOverlap (s e S E : Int) : Bool :=
  (s ≤ S ∧ e > S) ∨ (s < E ∧ e ≥ E) ∨ (s ≥ S ∧ e ≤ E)

/-- Effective duration used by `shift_future_plans_after` when pushing a
plan: `planned_duration_minutes` when truthy, else the plan's current
`end - start` (lines 721-724 of `ppc_casting_plan.py`). -/
def effDur (p : Plan) : Int :=
  match p.planned_duration_minutes with
  | none => p.end_datetime - p.start_datetime
  | some d => if d = 0 then p.end_datetime - p.start_datetime else d

/-- Model of `set_planned_duration` (`ppc_casting_plan.py` lines 66-92), run by
`validate` on every `doc.save()`: for a plan still in a shiftable status
(`"Planned"` in this module) store `end - start` as the planned duration
when positive. -/
def setPlannedDuration (p : Plan) : Plan :=
  if ppcShiftable p.status ∧ p.start_datetime < p.end_datetime then
    { p with planned_duration_minutes := some (p.end_datetime - p.start_datetime) }
  else p

/-- The push of one plan by `shift_future_plans_after`: move its window to
`[lastEnd, lastEnd + effDur)` and let the triggered `save` re-run
`set_planned_duration`. -/
def pushPlan (p : Plan) (lastEnd : Int) : Plan :=
  setPlannedDuration
    { p with start_datetime := lastEnd, end_datetime := lastEnd + effDur p }

/-- The cursor walk of `shift_future_plans_after` (lines 714-734): given the
running `last_end` cursor, rewrite the eligible plans in order.  A plan
whose start precedes the cursor is pushed to the cursor with its effective
duration; otherwise it is left alone.  Either way the cursor advances to
the plan's (new) end. -/
def restackWalk (lastEnd : Int) : List Plan → List Plan
  | [] => []
  | p :: rest =>
    if p.start_datetime < lastEnd then
      let p' := pushPlan p lastEnd
      p' :: restackWalk p'.end_datetime rest
    else
      p :: restackWalk p.end_datetime rest

/-- Ordering used for `order_by="start_datetime asc"`. -/
def startLE (a b : Plan) : Prop := a.start_datetime ≤ b.start_datetime

instance : DecidableRel startLE := fun a b => by
  unfold startLE; infer_instance

instance : IsTotal Plan startLE :=
  ⟨fun a b => Int.le_total a.start_datetime b.start_datetime⟩

instance : IsTrans Plan startLE :=
  ⟨fun _ _ _ h₁ h₂ => le_trans h₁ h₂⟩

/-- Model of `ORDER BY start_datetime asc` on a query result, modelled as a stable
sort of the filtered list. -/
def sortByStart (l : List Plan) : List Plan := List.insertionSort startLE l

/-- Row filter of the `frappe.get_all` call in `shift_future_plans_after`
(lines 701-712): same caster, different name, `start_datetime >=`
the anchor's start, status in this module's `SHIFTABLE_STATUSES` and not
cancelled (`docstatus < 2`). -/
def restackEligible (current : Plan) (p : Plan) : Bool :=
  p.name ≠ current.name ∧ p.caster = current.caster ∧
    current.start_datetime ≤ p.start_datetime ∧
    ppcShiftable p.status ∧ p.docstatus < 2

/-- Write a batch of re-saved documents back into the database by primary
key: each row keeps its position, a row whose `name` appears among the
updates is replaced by the updated document. -/
def applyByName (updates : List Plan) (db : List Plan) : List Plan :=
  db.map fun p => ((updates.find? fun q => q.name == p.name).getD p)

/-- The saved documents produced by one run of `shift_future_plans_after`:
the eligible future plans of the caster, ordered by start, after the cursor
walk starting at the anchor's `end_datetime`. -/
def restackMoved (current : Plan) (db : List Plan) : List Plan :=
  restackWalk current.end_datetime
    (sortByStart (db.filter (restackEligible current)))

/-- Model of `shift_future_plans_after(current_plan)` (`ppc_casting_plan.py` lines
657-736): fetch the eligible future plans of the caster ordered by start,
walk them with the cursor starting at the anchor's `end_datetime`, and save
every pushed plan. -/
def shift_future_plans_after (current : Plan) (db : List Plan) : List Plan :=
  applyByName (restackMoved current db) db

/-- The chain property of a cursor walk: starting from cursor `c`, every
plan in the list starts at or after the cursor, and the cursor then
advances to that plan's end.  A list with this property has no plan
overlapping its immediate predecessor (nor the anchor window ending at
`c`). -/
def chainFrom (c : Int) : List Plan → Bool
  | [] => true
  | p :: rest => decide (c ≤ p.start_datetime) && chainFrom p.end_datetime rest

/-- The relation between an eligible plan and its saved version after one
cursor walk: the identifying fields are untouched, and the plan is either
left alone or pushed strictly forward to a window of length `effDur`. -/
def walkRel (p q : Plan) : Prop :=
  q.name = p.name ∧ q.caster = p.caster ∧ q.status = p.status ∧
    q.docstatus = p.docstatus ∧ q.melting_batch = p.melting_batch ∧
    (q = p ∨ (p.start_datetime < q.start_datetime ∧
      q.end_datetime - q.start_datetime = effDur p))

/-! ## The two uniform shifters -/

/-- Translate a window by `delta`, as both uniform shifters do
(`new_start = start + delta`, `new_end = end + delta` in
`ppc_caster_kiosk.shift_future_plans`; `new_start = start + delta`,
`new_end = new_start + (end - start)` in `shift_future_plans_for_caster` —
the same function). -/
def shiftWindow (delta : Int) (p : Plan) : Plan :=
  { p with start_datetime := p.start_datetime + delta,
           end_datetime := p.end_datetime + delta }

/-- Row filter of `ppc_caster_kiosk.shift_future_plans` (lines 103-112):
same caster, kiosk-shiftable status, `start_datetime >= from_datetime`.
The query has no `docstatus` filter. -/
def kioskShiftSel (caster : Nat) (fromDT : Int) (p : Plan) : Bool :=
  p.caster = caster ∧ kioskShiftable p.status ∧ fromDT ≤ p.start_datetime

/-- Model of `ppc_caster_kiosk.shift_future_plans` (lines 86-132): shift every
selected plan by `delta` (the source passes seconds; the model's unit is
minutes throughout).  Rows are written back with `frappe.db.set_value`,
which runs no validation, so this is a pure window translation; the
iteration order of the query is irrelevant because every row is updated
independently by primary key, so the loop is modelled as an in-place map. -/
def shift_future_plans (caster : Nat) (fromDT : Int) (delta : Int)
    (excludeName : Option Nat) (db : List Plan) : List Plan :=
  if delta = 0 then db
  else db.map fun p =>
    if kioskShiftSel caster fromDT p ∧ excludeName ≠ some p.name then
      shiftWindow delta p
    else p

/-- Batch lookup (`frappe.db.get_value("Melting Batch", name, "status")`). -/
def findBatch (batches : List Batch) (name : Nat) : Option Batch :=
  batches.find? fun b => b.name == name

/-- The skip test of `shift_future_plans_for_caster` (`ppc_scheduler.py`
lines 111-116): a plan is skipped when it links a Melting Batch whose
status is present and not `"Draft"` (a missing batch row yields a falsy
`None` status and the plan is *not* skipped). -/
def batchNotDraftSkip (batches : List Batch) (p : Plan) : Bool :=
  match p.melting_batch with
  | none => false
  | some mb =>
    match findBatch batches mb with
    | none => false
    | some b => b.status ≠ .draft

/-- Row filter of `shift_future_plans_for_caster` (lines 84-100): same
caster, `start_datetime >= from_time`, movable status, not cancelled. -/
def schedulerShiftSel (caster : Nat) (fromDT : Int) (p : Plan) : Bool :=
  p.caster = caster ∧ fromDT ≤ p.start_datetime ∧
    kioskShiftable p.status ∧ p.docstatus < 2

/-- One row update of `shift_future_plans_for_caster`: translate the window
(duration-preserving) and let the triggered `doc.save()` re-run
`set_planned_duration`.  The other `validate` steps of that save can only
abort the transaction and are not modelled (see the header). -/
def schedulerSaveShift (delta : Int) (p : Plan) : Plan :=
  setPlannedDuration (shiftWindow delta p)

/-- Plan lookup (`frappe.get_doc("PPC Casting Plan", name)`). -/
def findPlan (db : List Plan) (name : Nat) : Option Plan :=
  db.find? fun p => p.name == name

/-- Model of `shift_future_plans_for_caster` (`ppc_scheduler.py` lines 50-133):
uniform shift by `delta` of the movable plans of the anchor's caster that
start at/after `fromDT`, skipping the anchor itself and any plan frozen by
a non-Draft Melting Batch.  A zero delta is a no-op; a missing anchor plan
makes `frappe.get_doc` raise. -/
def shift_future_plans_for_caster (planName : Nat) (delta : Int) (fromDT : Int)
    (db : List Plan) (batches : List Batch) : Except Unit (List Plan) :=
  if delta = 0 then .ok db
  else
    match findPlan db planName with
    | none => .error ()
    | some cp =>
      .ok (db.map fun p =>
        if schedulerShiftSel cp.caster fromDT p ∧ p.name ≠ planName ∧
            ¬ batchNotDraftSkip batches p then
          schedulerSaveShift delta p
        else p)

/-! ## Overlap validation -/

/-- Model of `ensure_no_overlap_with_locked` (`ppc_caster_kiosk.py` lines 135-172):
`true` when the window `[startDT, endDT)` overlaps no non-cancelled plan of
the caster in a kiosk-locked status (the source raises otherwise). -/
def ensure_no_overlap_with_locked (caster : Nat) (startDT endDT : Int)
    (excludeName : Option Nat) (db : List Plan) : Bool :=
  (db.filter fun p =>
      p.caster = caster ∧ kioskLocked p.status ∧ p.docstatus < 2 ∧
        excludeName ≠ some p.name ∧
        intervalsOverlap startDT endDT p.start_datetime p.end_datetime).isEmpty

/-- A row matching the first (locked) query of `check_caster_overlap`
(`ppc_casting_plan.py` lines 255-280). -/
def lockedOverlapRow (doc : Plan) (p : Plan) : Bool :=
  p.name ≠ doc.name ∧ p.caster = doc.caster ∧ ppcLocked p.status ∧
    p.docstatus < 2 ∧
    sqlOverlap p.start_datetime p.end_datetime doc.start_datetime doc.end_datetime

/-- A row matching the second (earlier-shiftable) query of
`check_caster_overlap` (lines 293-320). -/
def earlierShiftableOverlapRow (doc : Plan) (p : Plan) : Bool :=
  p.name ≠ doc.name ∧ p.caster = doc.caster ∧ ppcShiftable p.status ∧
    p.docstatus < 2 ∧ p.start_datetime < doc.start_datetime ∧
    sqlOverlap p.start_datetime p.end_datetime doc.start_datetime doc.end_datetime

/-- Model of `check_caster_overlap` (lines 242-330): `true` when the saved document
collides with no locked plan and with no shiftable plan that starts before
it (the source raises otherwise). -/
def check_caster_overlap (doc : Plan) (db : List Plan) : Bool :=
  (db.filter (lockedOverlapRow doc)).isEmpty ∧
    (db.filter (earlierShiftableOverlapRow doc)).isEmpty

/-- The scheduler-relevant part of the `validate` hook of
`PPCCastingPlan` run by every `doc.save()` / `doc.insert()`:
datetime-range check (with the positivity check of `calculate_duration`),
`set_planned_duration`, then `check_caster_overlap`.  Failure corresponds
to `frappe.throw`, which aborts the surrounding transaction. -/
def validatePlan (doc : Plan) (db : List Plan) : Except Unit Plan :=
  if doc.end_datetime ≤ doc.start_datetime then .error ()
  else
    let doc := setPlannedDuration doc
    if check_caster_overlap doc db then .ok doc else .error ()

/-- Write one validated document back by primary key. -/
def replaceByName (doc : Plan) (db : List Plan) : List Plan :=
  db.map fun p => if p.name == doc.name then doc else p

/-- Model of `doc.save()`: run the modelled `validate`, then persist. -/
def savePlanDoc (doc : Plan) (db : List Plan) : Except Unit (Plan × List Plan) :=
  match validatePlan doc db with
  | .error _ => .error ()
  | .ok doc' => .ok (doc', replaceByName doc' db)

/-! ## Insertion planner -/

/-- Model of `compute_shift_window_and_delta` (`ppc_caster_kiosk.py` lines 40-83):
the earliest kiosk-shiftable plan of the caster starting at/after
`newStart` gives `shift_from`; the delta is `newEnd - shift_from`, with
`(none, 0)` when there is no such plan or the delta is not positive.  The
query has no `docstatus` filter. -/
def compute_shift_window_and_delta (caster : Nat) (newStart newEnd : Int)
    (db : List Plan) : Option Int × Int :=
  let cands := sortByStart (db.filter fun p =>
    p.caster = caster ∧ kioskShiftable p.status ∧ newStart ≤ p.start_datetime)
  match cands.head? with
  | none => (none, 0)
  | some f =>
    let delta := newEnd - f.start_datetime
    if delta ≤ 0 then (none, 0) else (some f.start_datetime, delta)

/-- Result of `create_plan`.  A `failed` outcome carries the state the
timeline is left in: a throw raised *after* `shift_future_plans` has run
leaves the already-committed shifts in place (the source commits them
inside `shift_future_plans` before `doc.insert()` runs). -/
inductive CreateResult where
  | failed (db : List Plan)
  | created (newName : Nat) (db : List Plan)
deriving DecidableEq, Repr

/-- Model of `create_plan` (`ppc_caster_kiosk.py` lines 524-644), scheduling part:
range check, past check, locked-overlap check, smart shift window, uniform
shift when needed, then insert-and-submit the new `Planned` document (the
insert runs the document `validate`). -/
def create_plan (db : List Plan) (nowDT : Int) (newName caster : Nat)
    (startDT endDT : Int) : CreateResult :=
  if endDT ≤ startDT then .failed db
  else if startDT < nowDT then .failed db
  else if ¬ ensure_no_overlap_with_locked caster startDT endDT none db then .failed db
  else
    let sw := compute_shift_window_and_delta caster startDT endDT db
    let db1 := match sw.1 with
      | some f => if 0 < sw.2 then shift_future_plans caster f sw.2 none db else db
      | none => db
    let doc : Plan :=
      { name := newName, caster := caster,
        start_datetime := startDT, end_datetime := endDT,
        planned_duration_minutes := none, status := .planned, docstatus := 0,
        melting_batch := none, actual_start := none, actual_end := none,
        melting_start := none }
    match validatePlan doc db1 with
    | .error _ => .failed db1
    | .ok doc' => .created newName (db1 ++ [{ doc' with docstatus := 1 }])

/-- The timeline a `create_plan` call leaves behind, whether it succeeded
or aborted. -/
def createdDb : CreateResult → List Plan
  | .failed db => db
  | .created _ db => db

/-! ## Re-anchor and completion controllers -/

/-- Model of `start_melting_for_plan` (`ppc_casting_plan.py` lines 739-809): link
the batch, backfill `planned_duration_minutes`, re-anchor the window to the
melt start, stamp `actual_start` / `melting_start`, bump a `Planned` status
to `Melting`, save (running `validate`), then cascade with
`shift_future_plans_after`. -/
def start_melting_for_plan (db : List Plan) (planName : Nat)
    (meltingBatchName : Option Nat) (meltStart : Int) :
    Except Unit (List Plan) :=
  match findPlan db planName with
  | none => .error ()
  | some plan =>
    let plan := match meltingBatchName with
      | some mb => { plan with melting_batch := some mb }
      | none => plan
    -- step 2: both datetimes are always present in the model, so the
    -- 60-minute default of the source is unreachable
    let plan := if plan.planned_duration_minutes.getD 0 = (0 : Int) then
        let d := plan.end_datetime - plan.start_datetime
        { plan with planned_duration_minutes := some d }
      else plan
    let plan := match plan.planned_duration_minutes with
      | some d => if d = 0 then plan else
          { plan with start_datetime := meltStart, end_datetime := meltStart + d }
      | none => plan
    let plan := { plan with
      actual_start := some (plan.actual_start.getD meltStart),
      melting_start := some meltStart }
    let plan := if ppcShiftable plan.status then { plan with status := .melting }
      else plan
    match savePlanDoc plan db with
    | .error _ => .error ()
    | .ok (plan', db') => .ok (shift_future_plans_after plan' db')

/-- Model of `mark_casting_complete` (`ppc_casting_plan.py` lines 812-866): stamp
`actual_end`, set the terminal status, replace the planned window with the
actual one when both actual timestamps are known, save (running
`validate`), then cascade with `shift_future_plans_after`. -/
def mark_casting_complete (db : List Plan) (planName : Nat)
    (completeDT : Int) : Except Unit (List Plan) :=
  match findPlan db planName with
  | none => .error ()
  | some plan =>
    let plan := { plan with actual_end := some completeDT,
                            status := .coilsComplete }
    let plan := match plan.actual_start, plan.actual_end with
      | some s, some e => { plan with start_datetime := s, end_datetime := e }
      | _, _ => plan
    match savePlanDoc plan db with
    | .error _ => .error ()
    | .ok (plan', db') => .ok (shift_future_plans_after plan' db')

/-- Model of `mark_melting_started_if_first_time` (`melting_batch.py` lines
259-316): a no-op unless the batch links a plan without a recorded
`melting_start`; otherwise stamp the timestamps, bump the status, move the
plan's window to `now` keeping its current `end - start`, save, and
uniform-shift the caster's movable plans by `now - old_start` **starting
from the old planned start**. -/
def mark_melting_started_if_first_time (b : Batch) (nowTS : Int)
    (db : List Plan) (batches : List Batch) : Except Unit (List Plan) :=
  match b.ppc_casting_plan with
  | none => .ok db
  | some cpName =>
    match findPlan db cpName with
    | none => .error ()
    | some cp =>
      if cp.melting_start.isSome then .ok db
      else
        let oldStart := cp.start_datetime
        let oldEnd := cp.end_datetime
        let cp := { cp with melting_start := some nowTS,
                            actual_start := some nowTS }
        let cp := if kioskShiftable cp.status then { cp with status := .melting }
          else cp
        -- both planned datetimes are always present in the model, so the
        -- re-anchor branch always runs
        let delta := nowTS - oldStart
        let cp := { cp with start_datetime := nowTS,
                            end_datetime := nowTS + (oldEnd - oldStart) }
        match savePlanDoc cp db with
        | .error _ => .error ()
        | .ok (cp', db') =>
          if delta = 0 then .ok db'
          else shift_future_plans_for_caster cp'.name delta oldStart db' batches

/-! ## Preview insertion -/

/-- Result shape of `preview_plan_insertion` (its returned dict). -/
structure PreviewResult where
  requested_start : Int
  requested_end : Int
  suggested_start : Int
  suggested_end : Int
  shift_from : Option Int
  shift_delta : Int
  affected : List Nat
deriving DecidableEq, Repr

/-- The plan list `preview_plan_insertion` scans (lines 201-211): all
non-cancelled plans of the caster except `Not Produced`, ordered by
start. -/
def previewPlans (caster : Nat) (db : List Plan) : List Plan :=
  sortByStart (db.filter fun p =>
    p.caster = caster ∧ p.status ≠ .notProduced ∧ p.docstatus < 2)

/-- The begun-test of `preview_plan_insertion` (line 229): the overlapped
plan counts as already started when its `start_datetime` is before now. -/
def overlappedAlreadyStarted (nowDT : Int) (p : Plan) : Bool :=
  p.start_datetime < nowDT

/-- The snapping walk of `preview_plan_insertion` (lines 216-251): scan the
ordered plans for the first one whose interval contains the requested
start, remembering the previous plan; return the snapped start, or `none`
when the requested start lies inside no plan. -/
def snapStart (nowDT reqStart : Int) (prev : Option Plan) :
    List Plan → Option Int
  | [] => none
  | p :: rest =>
    if p.start_datetime ≤ reqStart ∧ reqStart < p.end_datetime then
      some
        (if overlappedAlreadyStarted nowDT p then
          let s := p.end_datetime
          if s < nowDT then nowDT else s
        else
          match prev with
          | some q =>
            let s := q.end_datetime
            if s < nowDT then nowDT else s
          | none => p.start_datetime)
    else snapStart nowDT reqStart (some p) rest

/-- Model of `preview_plan_insertion` (`ppc_caster_kiosk.py` lines 175-298): range
and past checks, snapping, past re-check, locked-overlap check, smart
shift computation and the affected-plan listing. -/
def preview_plan_insertion (caster : Nat) (nowDT reqStart reqEnd : Int)
    (db : List Plan) : Except Unit PreviewResult :=
  if reqEnd ≤ reqStart then .error ()
  else if reqStart < nowDT then .error ()
  else
    let duration := reqEnd - reqStart
    let plans := previewPlans caster db
    let suggestedStart := (snapStart nowDT reqStart none plans).getD reqStart
    let suggestedEnd := suggestedStart + duration
    if suggestedStart < nowDT then .error ()
    else if ¬ ensure_no_overlap_with_locked caster suggestedStart suggestedEnd
        none db then .error ()
    else
      let sw := compute_shift_window_and_delta caster suggestedStart
        suggestedEnd db
      let affected := match sw.1 with
        | some f =>
          if 0 < sw.2 then
            (sortByStart (db.filter fun p =>
              p.caster = caster ∧ kioskShiftable p.status ∧ p.docstatus < 2 ∧
                f ≤ p.start_datetime)).map (·.name)
          else []
        | none => []
      .ok { requested_start := reqStart, requested_end := reqEnd,
            suggested_start := suggestedStart, suggested_end := suggestedEnd,
            shift_from := sw.1, shift_delta := sw.2, affected := affected }

/-! ## Cancellation guard -/

/-- Outcome of `validate_can_cancel`; every non-`allowed` value is a
`frappe.throw` with the corresponding message. -/
inductive CancelVerdict where
  | allowed
  | blockedStatus
  | blockedBatch
  | blockedLinkedBatch
  | missingBatch
deriving DecidableEq, Repr

/-- The trailing back-reference query of `validate_can_cancel`
(`ppc_casting_plan.py` lines 410-430): the first non-cancelled Melting
Batch whose `ppc_casting_plan` points at this plan blocks cancellation
unless it is still `Draft`. -/
def checkLinkedBatches (p : Plan) (batches : List Batch) : CancelVerdict :=
  match (batches.filter fun b =>
      b.ppc_casting_plan = some p.name ∧ b.docstatus ≠ 2).head? with
  | none => .allowed
  | some b => if b.status ≠ .draft then .blockedLinkedBatch else .allowed

/-- Model of `validate_can_cancel` (`ppc_casting_plan.py` lines 366-430): block when
the status is in this module's `LOCKED_STATUSES`, when the linked Melting
Batch is neither cancelled nor an empty Draft, or when a non-cancelled
back-linked batch has left Draft.  A dangling `melting_batch` link makes
`frappe.get_doc` raise. -/
def validate_can_cancel (p : Plan) (batches : List Batch) : CancelVerdict :=
  if ppcLocked p.status then .blockedStatus
  else
    match p.melting_batch with
    | some mb =>
      match findBatch batches mb with
      | none => .missingBatch
      | some b =>
        if b.docstatus = 2 then checkLinkedBatches p batches
        else if b.status ≠ .draft then .blockedBatch
        else if 0 < b.raw_materials then .blockedBatch
        else checkLinkedBatches p batches
    | none => checkLinkedBatches p batches

/-! ## The no-locked-overlap invariant -/

/-- A slot that exists on the timeline (not a cancelled document). -/
def activeSlot (p : Plan) : Bool := p.docstatus < 2

/-- Two distinct slots of the same resource with intersecting
`[planned_start, planned_end)` windows. -/
def overlapPair (p q : Plan) : Bool :=
  p.caster = q.caster ∧ p.name ≠ q.name ∧
    intervalsOverlap p.start_datetime p.end_datetime
      q.start_datetime q.end_datetime

/-- Invariant I1 as the spec states it: no two active slots of one
resource, of which at least one has a locked status, overlap. -/
def noLockedOverlap (db : List Plan) : Prop :=
  ∀ p ∈ db, ∀ q ∈ db, activeSlot p → activeSlot q →
    (ppcLocked p.status ∨ ppcLocked q.status) → ¬ overlapPair p q

instance (db : List Plan) : Decidable (noLockedOverlap db) := by
  unfold noLockedOverlap; infer_instance

/-- The weakening of I1 that the operations actually maintain: no two
active slots of one resource that are *both* locked overlap. -/
def noBothLockedOverlap (db : List Plan) : Prop :=
  ∀ p ∈ db, ∀ q ∈ db, activeSlot p → activeSlot q →
    ppcLocked p.status → ppcLocked q.status → ¬ overlapPair p q

instance (db : List Plan) : Decidable (noBothLockedOverlap db) := by
  unfold noBothLockedOverlap; infer_instance

/-! ## Auxiliary predicates and concrete states used by the theorems -/

/-- Well-formedness that the document validation maintains on every saved
plan: a positive window and, when recorded, a positive planned duration. -/
def wfB (p : Plan) : Bool :=
  decide (p.start_datetime < p.end_datetime) &&
    (match p.planned_duration_minutes with
     | none => true
     | some d => decide (0 < d))

/-- The first plan (in start order) whose interval contains the requested
start — the `overlapped` plan of `preview_plan_insertion`. -/
def firstOverlapped (reqStart : Int) (plans : List Plan) : Option Plan :=
  plans.find? fun q => q.start_datetime ≤ reqStart ∧ reqStart < q.end_datetime

/-- Strict start order, used to identify the unique sorted arrangement of
plans with pairwise distinct starts. -/
def startLT (a b : Plan) : Prop := a.start_datetime < b.start_datetime

instance : IsAntisymm Plan startLT :=
  ⟨fun _ _ h h' => absurd (lt_trans h h') (lt_irrefl _)⟩

/- Concrete timeline states (all times in minutes). -/

/-- A movable plan 10:00-11:00 (600-660). -/
def cxMovableA : Plan :=
  ⟨1, 1, 600, 660, some 60, .planned, 1, none, none, none, none⟩

/-- A locked (Melting) plan 12:00-13:00 (720-780). -/
def cxLockedL : Plan :=
  ⟨2, 1, 720, 780, some 60, .melting, 1, none, some 720, none, some 720⟩

/-- The state `create_plan` leaves behind in the C1 counterexample: the
movable plan was uniform-shifted onto the locked plan. -/
def cxInsertedDb : List Plan :=
  [{ cxMovableA with start_datetime := 690, end_datetime := 750 }, cxLockedL,
   ⟨9, 1, 600, 690, some 90, .planned, 1, none, none, none, none⟩]

/-- A cancelled (`docstatus = 2`) plan still carrying status `Planned`. -/
def cxCancelledPlanned : Plan :=
  ⟨1, 1, 100, 160, some 60, .planned, 2, none, none, none, none⟩

/-- A locked anchor used for the re-stack comparison in C10. -/
def cxAnchor10 : Plan :=
  ⟨2, 1, 90, 130, some 40, .melting, 1, none, some 90, none, some 90⟩

/-- A cancelled plan in a locked status. -/
def cxCancelledLocked : Plan :=
  ⟨3, 1, 100, 160, some 60, .melting, 2, none, none, none, none⟩

/-- A `Planned` plan whose window has begun (start in the past) but whose
`actual_start` was never stamped. -/
def cxPreviewPlan : Plan :=
  ⟨1, 1, 50, 150, some 100, .planned, 1, none, none, none, none⟩

/-- A plan already marked `Not Produced`. -/
def cxNotProducedPlan : Plan :=
  ⟨1, 1, 100, 160, some 60, .notProduced, 0, none, none, none, none⟩

/-- A plan whose melting already started (recorded `melting_start`). -/
def cxReanchored : Plan :=
  ⟨1, 1, 10, 20, some 10, .melting, 0, none, some 5, none, some 5⟩

/-- A locked anchor plan 0-60 used by the C5 and C3 counterexamples. -/
def cxAnchor5 : Plan :=
  ⟨1, 1, 0, 60, some 60, .melting, 1, none, some 0, none, some 0⟩

/-- A nominally movable plan frozen by a non-Draft melting batch. -/
def cxFrozen : Plan :=
  ⟨2, 1, 30, 60, none, .planned, 1, some 7, none, none, none⟩

/-- The melting batch of `cxFrozen`, already `Charging`. -/
def cxChargingBatch : Batch := ⟨7, .charging, 0, 2, 1, 0, some 2⟩

/-- A movable plan whose stored planned duration (100) disagrees with its
current window length (10). -/
def cxMismatch : Plan :=
  ⟨2, 1, 30, 40, some 100, .planned, 1, none, none, none, none⟩

/-- Where the re-stack puts `cxMismatch`: a 100-minute window. -/
def cxMismatchMoved : Plan :=
  { cxMismatch with start_datetime := 60, end_datetime := 160 }

/-- The plan re-anchored late in the C4 counterexample (linked from
`cxLinkBatch`). -/
def cxEarlyPlan : Plan :=
  ⟨1, 1, 10, 20, none, .planned, 0, none, none, none, none⟩

/-- A movable plan starting before the late re-anchor target time. -/
def cxLaterMovable : Plan :=
  ⟨2, 1, 25, 26, none, .planned, 0, none, none, none, none⟩

/-- The draft batch whose first melting action re-anchors `cxEarlyPlan`. -/
def cxLinkBatch : Batch := ⟨7, .draft, 0, 0, 0, 0, some 1⟩

/-- State of `cxEarlyPlan` after the late re-anchor at t = 30. -/
def cxEarlyMoved : Plan :=
  { cxEarlyPlan with
    start_datetime := 30, end_datetime := 40,
    status := .melting, actual_start := some 30, melting_start := some 30 }

/-- State of `cxLaterMovable` after being dragged along by the uniform shift. -/
def cxLaterMoved : Plan :=
  { cxLaterMovable with
    start_datetime := 45, end_datetime := 46,
    planned_duration_minutes := some 1 }

/-- Anchor for the C7 counterexample. -/
def cxAnchor7 : Plan :=
  ⟨1, 1, 0, 10, none, .melting, 1, none, some 0, none, some 0⟩

/-- A movable plan with a (degenerate) negative stored duration. -/
def cxNegDur : Plan :=
  ⟨2, 1, 5, 6, some (-3), .planned, 1, none, none, none, none⟩

/-- A movable plan following `cxNegDur`. -/
def cxAfterNeg : Plan :=
  ⟨3, 1, 6, 8, none, .planned, 1, none, none, none, none⟩

/-- Well-formed movable plan used by witnesses. -/
def cxWfMovable : Plan :=
  ⟨2, 1, 30, 40, some 10, .planned, 1, none, none, none, none⟩


/-! ## Properties of the cursor walk -/

theorem chainFrom_restackWalk (c : Int) (ps : List Plan) :
    chainFrom c (restackWalk c ps) = true := by
  induction ps generalizing c with
  | nil => rfl
  | cons p rest ih =>
    by_cases h : p.start_datetime < c
    · simp only [restackWalk, if_pos h, chainFrom, pushPlan, setPlannedDuration]
      split
      · simpa using ih _
      · simpa using ih _
    · simp only [restackWalk, if_neg h, chainFrom, Bool.and_eq_true, decide_eq_true_eq]
      exact ⟨Int.not_lt.mp h, ih _⟩

theorem pushPlan_fields (p : Plan) (c : Int) :
    (pushPlan p c).name = p.name ∧ (pushPlan p c).caster = p.caster ∧
      (pushPlan p c).status = p.status ∧ (pushPlan p c).docstatus = p.docstatus ∧
      (pushPlan p c).melting_batch = p.melting_batch ∧
      (pushPlan p c).start_datetime = c ∧
      (pushPlan p c).end_datetime = c + effDur p := by
  unfold pushPlan setPlannedDuration
  split <;> simp

theorem restackWalk_pairs (c : Int) (ps : List Plan) :
    List.Forall₂ walkRel ps (restackWalk c ps) := by
  induction ps generalizing c with
  | nil => exact List.Forall₂.nil
  | cons p rest ih =>
    by_cases h : p.start_datetime < c
    · simp only [restackWalk, if_pos h]
      refine List.Forall₂.cons ?_ (ih _)
      obtain ⟨h₁, h₂, h₃, h₄, h₅, h₆, h₇⟩ := pushPlan_fields p c
      exact ⟨h₁, h₂, h₃, h₄, h₅, Or.inr ⟨by omega, by omega⟩⟩
    · simp only [restackWalk, if_neg h]
      exact List.Forall₂.cons ⟨rfl, rfl, rfl, rfl, rfl, Or.inl rfl⟩ (ih _)



/-- C2.  After a single cursor walk of the cascading re-stack
(`shift_future_plans_after`) over the eligible slots, started at the anchor
slot's `planned_end`: the output satisfies the chain property (so no
eligible slot overlaps its immediate predecessor, and the first does not
overlap the anchor), and every slot the pass changes has its
`planned_start` strictly increased. -/
theorem restack_single_pass_no_overlap_and_monotone (c : Int) (ps : List Plan) :
    (chainFrom c (restackWalk c ps) = true ∧
      List.Forall₂ (fun p q => q ≠ p → p.start_datetime < q.start_datetime)
        ps (restackWalk c ps)) ∧
    ∀ (current : Plan) (db : List Plan),
      chainFrom current.end_datetime (restackMoved current db) = true ∧
      List.Forall₂ (fun p q => q ≠ p → p.start_datetime < q.start_datetime)
        (sortByStart (db.filter (restackEligible current)))
        (restackMoved current db) :=
  ⟨⟨chainFrom_restackWalk c ps,
    (restackWalk_pairs c ps).imp fun _ _ h hne =>
      (h.2.2.2.2.2).elim (fun he => absurd he hne) fun hr => hr.1⟩,
   fun current db =>
    ⟨chainFrom_restackWalk current.end_datetime
      (sortByStart (db.filter (restackEligible current))),
     (restackWalk_pairs current.end_datetime
        (sortByStart (db.filter (restackEligible current)))).imp
       fun _ _ h hne =>
        (h.2.2.2.2.2).elim (fun he => absurd he hne) fun hr => hr.1⟩⟩

/-! ## Write-back machinery: relating a database to one run of the
cascading re-stack -/

theorem find?_partner {R : Plan → Plan → Prop} :
    ∀ {l m : List Plan},
      List.Forall₂ (fun p q => q.name = p.name ∧ R p q) l m →
      (l.map Plan.name).Nodup → ∀ p ∈ l,
      ∃ q, (m.find? fun x => x.name == p.name) = some q ∧ q.name = p.name ∧
        R p q := by
  intro l m hf
  induction hf with
  | nil => intro _ p hp; exact absurd hp (List.not_mem_nil p)
  | @cons p₀ q₀ l' m' h₀ _ ih =>
    intro hnd p hp
    have hnd' : (p₀.name :: l'.map Plan.name).Nodup := by simpa using hnd
    rcases List.mem_cons.mp hp with rfl | hp'
    · refine ⟨q₀, ?_, h₀.1, h₀.2⟩
      simp [List.find?, h₀.1]
    · have hpn : p.name ∈ l'.map Plan.name := List.mem_map_of_mem Plan.name hp'
      have hne : (q₀.name == p.name) = false := by
        rw [h₀.1, beq_eq_false_iff_ne]
        intro hb
        exact (List.nodup_cons.mp hnd').1 (hb ▸ hpn)
      obtain ⟨q, hf, hn, hr⟩ := ih (List.nodup_cons.mp hnd').2 p hp'
      refine ⟨q, ?_, hn, hr⟩
      simp only [List.find?_cons, hne]
      exact hf

theorem find?_none_of_names :
    ∀ {l m : List Plan},
      List.Forall₂ (fun p q => q.name = p.name) l m →
      ∀ {n : Nat}, n ∉ l.map Plan.name →
      (m.find? fun x => x.name == n) = none := by
  intro l m hf
  induction hf with
  | nil => intro n _; rfl
  | @cons p₀ q₀ l' m' h₀ _ ih =>
    intro n hn
    have h₁ : n ≠ p₀.name := fun he => hn (by simp [he])
    have h₂ : n ∉ l'.map Plan.name := fun he => hn (by simp [he])
    have hne : (q₀.name == n) = false := by
      rw [h₀, beq_eq_false_iff_ne]
      exact fun he => h₁ he.symm
    simp only [List.find?_cons, hne]
    exact ih h₂

theorem mem_sortByStart {p : Plan} {l : List Plan} :
    p ∈ sortByStart l ↔ p ∈ l :=
  (List.perm_insertionSort startLE l).mem_iff

theorem restackMoved_pairs (current : Plan) (db : List Plan) :
    List.Forall₂ walkRel
      (sortByStart (db.filter (restackEligible current)))
      (restackMoved current db) :=
  restackWalk_pairs _ _

theorem nodup_names_sortByStart_filter (q : Plan → Bool) (db : List Plan)
    (hnd : (db.map Plan.name).Nodup) :
    ((sortByStart (db.filter q)).map Plan.name).Nodup := by
  have h1 : ((db.filter q).map Plan.name).Nodup :=
    hnd.sublist ((List.filter_sublist db).map Plan.name)
  exact (((List.perm_insertionSort startLE _).map Plan.name).nodup_iff).mpr h1

theorem shift_future_plans_after_apply (current : Plan) (db : List Plan)
    (hnd : (db.map Plan.name).Nodup) (p : Plan) (hp : p ∈ db) :
    (restackEligible current p = false →
      ((restackMoved current db).find? fun x => x.name == p.name).getD p = p) ∧
    (restackEligible current p = true →
      ∃ q, ((restackMoved current db).find? fun x =>
        x.name == p.name).getD p = q ∧ walkRel p q) := by
  constructor
  · intro hPfalse
    have hnotin : p.name ∉
        (sortByStart (db.filter (restackEligible current))).map Plan.name := by
      intro hmem
      obtain ⟨e, he, hename⟩ := List.mem_map.mp hmem
      have he' := List.mem_filter.mp (mem_sortByStart.mp he)
      have : e = p := List.inj_on_of_nodup_map hnd he'.1 hp hename
      rw [this, hPfalse] at he'
      exact Bool.false_ne_true he'.2
    rw [find?_none_of_names
      ((restackMoved_pairs current db).imp fun _ _ h => h.1) hnotin]
    rfl
  · intro hPtrue
    have hpe : p ∈ sortByStart (db.filter (restackEligible current)) :=
      mem_sortByStart.mpr (List.mem_filter.mpr ⟨hp, hPtrue⟩)
    obtain ⟨q, hfq, _, hrel⟩ := find?_partner
      ((restackMoved_pairs current db).imp fun _ _ h => ⟨h.1, h⟩)
      (nodup_names_sortByStart_filter _ db hnd) p hpe
    exact ⟨q, by rw [hfq]; rfl, hrel⟩

theorem shift_future_plans_after_forall₂ (current : Plan) (db : List Plan)
    (hnd : (db.map Plan.name).Nodup) :
    List.Forall₂ (fun p q =>
        (restackEligible current p = false → q = p) ∧
        (restackEligible current p = true → walkRel p q))
      db (shift_future_plans_after current db) := by
  unfold shift_future_plans_after applyByName
  rw [List.forall₂_map_right_iff]
  rw [List.forall₂_same]
  intro p hp
  have h := shift_future_plans_after_apply current db hnd p hp
  refine ⟨fun hf => ?_, fun ht => ?_⟩
  · exact h.1 hf
  · obtain ⟨q, hq, hrel⟩ := h.2 ht
    rw [hq]; exact hrel

/-! ## Claim C10: the insertion path does not exclude cancelled documents -/

/-- C10.  On a timeline holding a cancelled plan (`docstatus = 2`) whose
status is still `Planned`, `compute_shift_window_and_delta` selects that
cancelled plan's start as `shift_from`, and `shift_future_plans` moves the
cancelled plan — while `shift_future_plans_after` and
`ensure_no_overlap_with_locked` filter cancelled documents out with
`docstatus < 2`. -/
theorem insertion_shift_path_includes_cancelled_docs :
    cxCancelledPlanned.docstatus = 2 ∧
    compute_shift_window_and_delta 1 90 130 [cxCancelledPlanned] =
      (some 100, 30) ∧
    shift_future_plans 1 100 30 none [cxCancelledPlanned] =
      [{ cxCancelledPlanned with
         start_datetime := 130, end_datetime := 190 }] ∧
    shift_future_plans_after cxAnchor10 [cxCancelledPlanned] =
      [cxCancelledPlanned] ∧
    ensure_no_overlap_with_locked 1 90 130 none [cxCancelledLocked] = true := by
  decide

/-! ## Claim C8: which slots the preview treats as begun -/

/-- C8 counterexample.  The requested start (t = 120) falls inside
`cxPreviewPlan`, whose `actual_start` is not set; the claim then forbids
treating it as begun, but `preview_plan_insertion` (testing
`start_datetime < now`, here `50 < 100`) snaps the suggestion to the
slot's `planned_end` (150), not to its `planned_start` (50). -/
theorem preview_snaps_on_planned_start_not_actual_start :
    cxPreviewPlan.actual_start = none ∧
    preview_plan_insertion 1 100 120 130 [cxPreviewPlan] =
      .ok { requested_start := 120, requested_end := 130,
            suggested_start := 150, suggested_end := 160,
            shift_from := none, shift_delta := 0, affected := [] } := by
  decide

/-! ## Claim C9: what the cancellation guard actually blocks -/

/-- C9.  A plan in the terminal status `Not Produced` — outside the
movable set — passes `validate_can_cancel` untouched, because the status
gate tests this module's `LOCKED_STATUSES`, which omits `"Not Produced"`
(even though `_get_cancel_block_reason` carries a message for it and the
docstring allows only `Planned` / `Released`). -/
theorem cancel_not_blocked_for_not_produced :
    kioskShiftable cxNotProducedPlan.status = false ∧
    ppcLocked cxNotProducedPlan.status = false ∧
    validate_can_cancel cxNotProducedPlan [] = .allowed := by
  decide

/-! ## Claim C6: is the re-anchor a one-shot operation? -/

/-- C6 counterexample.  `cxReanchored` already has `melting_start = 5`
recorded, yet `start_melting_for_plan` re-anchors it again to t = 30 and
restamps `melting_start`: the operation is not an idempotent no-op on a
slot with a recorded start-of-process timestamp. -/
theorem start_melting_refires_despite_recorded_start :
    cxReanchored.melting_start = some 5 ∧
    start_melting_for_plan [cxReanchored] 1 none 30 =
      .ok [{ cxReanchored with
             start_datetime := 30, end_datetime := 40,
             melting_start := some 30 }] := by
  decide

/-! ## Claim C5: the secondary lock of a non-Draft melting batch -/

/-- C5 counterexample.  `cxFrozen` links melting batch 7, which is already
`Charging` (non-Draft); the cascading re-stack still pushes it (it never
consults the batch), and the kiosk uniform shifter moves it as well. -/
theorem restack_moves_plan_with_started_batch :
    cxFrozen.melting_batch = some 7 ∧
    cxChargingBatch.name = 7 ∧ cxChargingBatch.status ≠ .draft ∧
    shift_future_plans_after cxAnchor5 [cxAnchor5, cxFrozen] =
      [cxAnchor5,
       { cxFrozen with
         start_datetime := 60, end_datetime := 90,
         planned_duration_minutes := some 30 }] ∧
    shift_future_plans 1 0 15 none [cxFrozen] =
      [{ cxFrozen with start_datetime := 45, end_datetime := 75 }] := by
  decide

/-! ## Claim C3: duration preservation under the shifters -/

/-- C3 counterexample.  `cxMismatch` has window length 10 but stored
planned duration 100; the cascading re-stack pushes it to a window of
length 100, so `new_end - new_start ≠ old_end - old_start`. -/
theorem restack_changes_duration_with_stale_planned_duration :
    cxMismatch.end_datetime - cxMismatch.start_datetime = 10 ∧
    shift_future_plans_after cxAnchor5 [cxAnchor5, cxMismatch] =
      [cxAnchor5, cxMismatchMoved] ∧
    cxMismatchMoved.end_datetime - cxMismatchMoved.start_datetime ≠
      cxMismatch.end_datetime - cxMismatch.start_datetime := by
  decide

/-! ## Claim C4: slots before the reference point -/

/-- C4 counterexample.  Melting for `cxEarlyPlan` (planned 10-20) starts
late at t = 30; `mark_melting_started_if_first_time` re-anchors it to
30-40 and then uniform-shifts from the *old* start (10), so the movable
slot `cxLaterMovable` — which starts at 25, strictly before the
re-anchored slot's new `planned_start` 30 — is moved to 45. -/
theorem reanchor_moves_slot_before_new_start :
    mark_melting_started_if_first_time cxLinkBatch 30
        [cxEarlyPlan, cxLaterMovable] [cxLinkBatch] =
      .ok [cxEarlyMoved, cxLaterMoved] ∧
    cxLaterMovable.start_datetime < cxEarlyMoved.start_datetime ∧
    cxLaterMoved.start_datetime ≠ cxLaterMovable.start_datetime := by
  decide

/-! ## Small helper lemmas about the predicates -/

theorem setPlannedDuration_window (p : Plan) :
    (setPlannedDuration p).start_datetime = p.start_datetime ∧
      (setPlannedDuration p).end_datetime = p.end_datetime := by
  unfold setPlannedDuration; split <;> simp

theorem restackEligible_true_iff {current p : Plan} :
    restackEligible current p = true ↔
      p.name ≠ current.name ∧ p.caster = current.caster ∧
        current.start_datetime ≤ p.start_datetime ∧
        p.status = .planned ∧ p.docstatus < 2 := by
  simp [restackEligible, ppcShiftable]

theorem kioskShiftSel_true_iff {caster : Nat} {fromDT : Int} {p : Plan} :
    kioskShiftSel caster fromDT p = true ↔
      p.caster = caster ∧ kioskShiftable p.status = true ∧
        fromDT ≤ p.start_datetime := by
  simp [kioskShiftSel]

theorem schedulerShiftSel_true_iff {caster : Nat} {fromDT : Int} {p : Plan} :
    schedulerShiftSel caster fromDT p = true ↔
      p.caster = caster ∧ fromDT ≤ p.start_datetime ∧
        kioskShiftable p.status = true ∧ p.docstatus < 2 := by
  simp [schedulerShiftSel]

theorem shiftWindow_duration (delta : Int) (p : Plan) :
    (shiftWindow delta p).end_datetime - (shiftWindow delta p).start_datetime =
      p.end_datetime - p.start_datetime := by
  unfold shiftWindow; simp

/-! ## Claim C6 (amended): only the guarded re-anchor is one-shot -/

/-- C6 amended.  `mark_melting_started_if_first_time` *is* a no-op when the
linked plan already has a recorded `melting_start`; the unguarded
`start_melting_for_plan` re-fires (see the counterexample). -/
theorem mark_melting_started_noop_when_already_recorded (b : Batch)
    (nowTS : Int) (db : List Plan) (batches : List Batch) (cpName : Nat)
    (cp : Plan) (hlink : b.ppc_casting_plan = some cpName)
    (hfind : findPlan db cpName = some cp)
    (hstarted : cp.melting_start.isSome = true) :
    mark_melting_started_if_first_time b nowTS db batches = .ok db := by
  unfold mark_melting_started_if_first_time
  rw [hlink]
  simp only [hfind, hstarted, if_true]

theorem mark_melting_started_noop_witness :
    mark_melting_started_if_first_time ⟨9, .charging, 0, 1, 0, 0, some 1⟩ 50
      [cxReanchored] [] = .ok [cxReanchored] :=
  mark_melting_started_noop_when_already_recorded _ 50 _ [] 1 cxReanchored
    (by decide) (by decide) (by decide)

/-! ## Claim C5 (amended): only the scheduler-module shifter honours the
secondary lock -/

/-- C5 amended.  `shift_future_plans_for_caster` never moves a plan whose
linked Melting Batch has a present, non-Draft status; the other two
shifters do not consult the batch at all (see the counterexample). -/
theorem scheduler_shift_skips_non_draft_batch (planName : Nat)
    (delta fromDT : Int) (db : List Plan) (batches : List Batch)
    (db' : List Plan)
    (hok : shift_future_plans_for_caster planName delta fromDT db batches =
      .ok db') :
    List.Forall₂ (fun p q => batchNotDraftSkip batches p = true → q = p)
      db db' := by
  unfold shift_future_plans_for_caster at hok
  by_cases h0 : delta = 0
  · rw [if_pos h0] at hok
    cases hok
    exact List.forall₂_same.mpr fun p _ _ => rfl
  · rw [if_neg h0] at hok
    cases hfp : findPlan db planName with
    | none => rw [hfp] at hok; cases hok
    | some cp =>
      rw [hfp] at hok
      cases hok
      refine List.forall₂_map_right_iff.mpr (List.forall₂_same.mpr ?_)
      intro p _ hskip
      rw [if_neg]
      intro hc
      exact hc.2.2 (by rw [hskip])

theorem scheduler_shift_skips_witness :
    List.Forall₂
      (fun p q => batchNotDraftSkip [cxChargingBatch] p = true → q = p)
      [cxAnchor5, cxFrozen] [cxAnchor5, cxFrozen] :=
  scheduler_shift_skips_non_draft_batch 1 10 0 [cxAnchor5, cxFrozen]
    [cxChargingBatch] [cxAnchor5, cxFrozen] (by decide)

/-! ## Claim C3 (amended): where duration is and is not preserved -/

/-- C3 amended.  Both uniform shifters preserve every moved slot's duration
exactly, for any state.  The cascading re-stack gives a pushed slot the
window length `effDur` (its stored `planned_duration_minutes` when truthy),
so it preserves duration exactly on states where every slot's stored
planned duration is unset or agrees with its current window length — but
not in general (see the counterexample). -/
theorem shift_duration_preservation (caster : Nat) (fromDT delta : Int)
    (excl : Option Nat) (db : List Plan) :
    List.Forall₂ (fun p q => q.end_datetime - q.start_datetime =
        p.end_datetime - p.start_datetime) db
      (shift_future_plans caster fromDT delta excl db) ∧
    (∀ planName batches db',
      shift_future_plans_for_caster planName delta fromDT db batches =
        .ok db' →
      List.Forall₂ (fun p q => q.end_datetime - q.start_datetime =
        p.end_datetime - p.start_datetime) db db') ∧
    (∀ current : Plan, (db.map Plan.name).Nodup →
      (∀ p ∈ db, p.planned_duration_minutes = none ∨
        p.planned_duration_minutes =
          some (p.end_datetime - p.start_datetime)) →
      List.Forall₂ (fun p q => q.end_datetime - q.start_datetime =
        p.end_datetime - p.start_datetime) db
        (shift_future_plans_after current db)) := by
  refine ⟨?_, ?_, ?_⟩
  · unfold shift_future_plans
    by_cases h0 : delta = 0
    · rw [if_pos h0]
      exact List.forall₂_same.mpr fun p _ => rfl
    · rw [if_neg h0]
      refine List.forall₂_map_right_iff.mpr (List.forall₂_same.mpr ?_)
      intro p _
      by_cases hc : kioskShiftSel caster fromDT p = true ∧ excl ≠ some p.name
      · rw [if_pos hc]; exact shiftWindow_duration delta p
      · rw [if_neg hc]
  · intro planName batches db' hok
    unfold shift_future_plans_for_caster at hok
    by_cases h0 : delta = 0
    · rw [if_pos h0] at hok
      cases hok
      exact List.forall₂_same.mpr fun p _ => rfl
    · rw [if_neg h0] at hok
      cases hfp : findPlan db planName with
      | none => rw [hfp] at hok; cases hok
      | some cp =>
        rw [hfp] at hok
        cases hok
        refine List.forall₂_map_right_iff.mpr (List.forall₂_same.mpr ?_)
        intro p _
        by_cases hc : schedulerShiftSel cp.caster fromDT p = true ∧
            p.name ≠ planName ∧ ¬ batchNotDraftSkip batches p = true
        · rw [if_pos hc]
          unfold schedulerSaveShift
          have hw := setPlannedDuration_window (shiftWindow delta p)
          rw [hw.1, hw.2]
          exact shiftWindow_duration delta p
        · rw [if_neg hc]
  · intro current hnd hpd
    unfold shift_future_plans_after applyByName
    refine List.forall₂_map_right_iff.mpr (List.forall₂_same.mpr ?_)
    intro p hp
    have h := shift_future_plans_after_apply current db hnd p hp
    by_cases hel : restackEligible current p = true
    · obtain ⟨q, hq, hrel⟩ := h.2 hel
      rw [hq]
      rcases hrel.2.2.2.2.2 with rfl | ⟨_, hd⟩
      · rfl
      · rw [hd]
        rcases hpd p hp with hnone | hsome
        · unfold effDur; rw [hnone]
        · unfold effDur
          rw [hsome]
          simp
    · rw [h.1 (Bool.not_eq_true _ ▸ Bool.of_not_eq_true hel)]

theorem shift_duration_preservation_witness :
    List.Forall₂ (fun p q => q.end_datetime - q.start_datetime =
        p.end_datetime - p.start_datetime) [cxAnchor5, cxWfMovable]
      (shift_future_plans_after cxAnchor5 [cxAnchor5, cxWfMovable]) :=
  (shift_duration_preservation 1 0 5 none [cxAnchor5, cxWfMovable]).2.2
    cxAnchor5 (by decide) (by decide)

theorem setPlannedDuration_fields (p : Plan) :
    (setPlannedDuration p).name = p.name ∧
      (setPlannedDuration p).caster = p.caster ∧
      (setPlannedDuration p).status = p.status ∧
      (setPlannedDuration p).docstatus = p.docstatus ∧
      (setPlannedDuration p).start_datetime = p.start_datetime ∧
      (setPlannedDuration p).end_datetime = p.end_datetime := by
  unfold setPlannedDuration; split <;> simp

theorem findPlan_spec {db : List Plan} {n : Nat} {p : Plan}
    (h : findPlan db n = some p) : p ∈ db ∧ p.name = n :=
  ⟨List.mem_of_find?_eq_some h, by simpa using List.find?_some h⟩

theorem validatePlan_ok {doc doc' : Plan} {db : List Plan}
    (h : validatePlan doc db = .ok doc') :
    doc' = setPlannedDuration doc ∧ doc.start_datetime < doc.end_datetime ∧
      check_caster_overlap (setPlannedDuration doc) db = true := by
  unfold validatePlan at h
  split at h
  · cases h
  · rename_i hrange
    have h' : (if check_caster_overlap (setPlannedDuration doc) db = true then
        Except.ok (ε := Unit) (setPlannedDuration doc) else Except.error ()) =
        Except.ok doc' := h
    split at h'
    · rename_i hcheck
      rw [Except.ok.injEq] at h'
      exact ⟨h'.symm, by omega, hcheck⟩
    · cases h'

theorem savePlanDoc_ok {doc cp' : Plan} {db db1 : List Plan}
    (h : savePlanDoc doc db = .ok (cp', db1)) :
    cp' = setPlannedDuration doc ∧ db1 = replaceByName cp' db ∧
      doc.start_datetime < doc.end_datetime ∧
      check_caster_overlap (setPlannedDuration doc) db = true := by
  unfold savePlanDoc at h
  split at h
  · cases h
  · rename_i doc' hval
    rw [Except.ok.injEq, Prod.mk.injEq] at h
    obtain ⟨h1, h2⟩ := h
    obtain ⟨hv1, hv2, hv3⟩ := validatePlan_ok hval
    exact ⟨h1.symm.trans hv1, by rw [← h2, h1], hv2, hv3⟩

/-! ## Claim C4 (amended): which slots stay untouched -/

/-- C4 amended.  A movable slot starting strictly before the reference
point is untouched where the reference point is: `from_datetime` for the
kiosk uniform shifter, the anchor's (new) `planned_start` for the
cascading re-stack — but for `mark_melting_started_if_first_time` the
uniform shift is keyed to the *old* planned start, so only slots starting
before both the old start and the new start are guaranteed untouched (a
late re-anchor moves movable slots between the two; see the
counterexample). -/
theorem earlier_slots_untouched (db : List Plan) :
    (∀ (caster : Nat) (fromDT delta : Int) (excl : Option Nat),
      List.Forall₂ (fun p q => p.start_datetime < fromDT → q = p) db
        (shift_future_plans caster fromDT delta excl db)) ∧
    (∀ current : Plan, (db.map Plan.name).Nodup →
      List.Forall₂
        (fun p q => p.start_datetime < current.start_datetime → q = p) db
        (shift_future_plans_after current db)) ∧
    (∀ (b : Batch) (nowTS : Int) (batches : List Batch) (cpName : Nat)
        (cp : Plan) (db' : List Plan),
      b.ppc_casting_plan = some cpName → findPlan db cpName = some cp →
      mark_melting_started_if_first_time b nowTS db batches = .ok db' →
      List.Forall₂ (fun p q => p.name ≠ cpName →
        p.start_datetime < cp.start_datetime → q = p) db db') := by
  refine ⟨?_, ?_, ?_⟩
  · intro caster fromDT delta excl
    unfold shift_future_plans
    by_cases h0 : delta = 0
    · rw [if_pos h0]
      exact List.forall₂_same.mpr fun p _ _ => rfl
    · rw [if_neg h0]
      refine List.forall₂_map_right_iff.mpr (List.forall₂_same.mpr ?_)
      intro p _ hlt
      rw [if_neg]
      intro hc
      have := (kioskShiftSel_true_iff.mp hc.1).2.2
      omega
  · intro current hnd
    unfold shift_future_plans_after applyByName
    refine List.forall₂_map_right_iff.mpr (List.forall₂_same.mpr ?_)
    intro p hp hlt
    have h := shift_future_plans_after_apply current db hnd p hp
    cases hel : restackEligible current p with
    | false => exact h.1 hel
    | true =>
      have := (restackEligible_true_iff.mp hel).2.2.1
      omega
  · intro b nowTS batches cpName cp db' hlink hfind hok
    unfold mark_melting_started_if_first_time at hok
    rw [hlink] at hok
    simp only [hfind] at hok
    split at hok
    · cases hok
      exact List.forall₂_same.mpr fun p _ _ _ => rfl
    · split at hok
      · cases hok
      · rename_i cp2 db1 heqSave
        obtain ⟨hcp2, hdb1, _, _⟩ := savePlanDoc_ok heqSave
        have hcpName : cp.name = cpName := (findPlan_spec hfind).2
        have hcpn : cp2.name = cpName := by
          rw [hcp2, (setPlannedDuration_fields _).1]
          split <;> exact hcpName
        have hdb1form : List.Forall₂ (fun p q => p.name ≠ cpName → q = p)
            db db1 := by
          rw [hdb1]
          unfold replaceByName
          refine List.forall₂_map_right_iff.mpr (List.forall₂_same.mpr ?_)
          intro p _ hne
          have hne2 : (p.name == cp2.name) = false := by
            rw [beq_eq_false_iff_ne]
            exact fun he => hne (by rw [he, hcpn])
          rw [hne2]
          simp
        split at hok
        · cases hok
          exact hdb1form.imp fun p q h hne _ => h hne
        · unfold shift_future_plans_for_caster at hok
          split at hok
          · cases hok
            exact hdb1form.imp fun p q h hne _ => h hne
          · split at hok
            · cases hok
            · rename_i cpFound hfind1
              cases hok
              rw [hdb1]
              unfold replaceByName
              rw [List.map_map]
              refine List.forall₂_map_right_iff.mpr
                (List.forall₂_same.mpr ?_)
              intro p _ hne hlt
              have hne2 : (p.name == cp2.name) = false := by
                rw [beq_eq_false_iff_ne]
                exact fun he => hne (by rw [he, hcpn])
              have hinner :
                  (if (p.name == cp2.name) = true then cp2 else p) = p := by
                rw [hne2]
                simp
              simp only [Function.comp, hinner]
              rw [if_neg]
              intro hc
              have := (schedulerShiftSel_true_iff.mp hc.1).2.1
              omega

theorem earlier_slots_untouched_witness :
    List.Forall₂ (fun p q => p.name ≠ 1 →
        p.start_datetime < cxEarlyPlan.start_datetime → q = p)
      [cxEarlyPlan, cxLaterMovable] [cxEarlyMoved, cxLaterMoved] :=
  (earlier_slots_untouched [cxEarlyPlan, cxLaterMovable]).2.2 cxLinkBatch 30
    [cxLinkBatch] 1 cxEarlyPlan [cxEarlyMoved, cxLaterMoved]
    (by decide) (by decide) (by decide)

/-! ## Claim C8 (amended): the snapping rule the preview implements -/

theorem snapStart_of_begun (nowDT reqStart : Int) (p : Plan)
    (hbegun : overlappedAlreadyStarted nowDT p = true) :
    ∀ (plans : List Plan) (prev : Option Plan),
      firstOverlapped reqStart plans = some p →
      snapStart nowDT reqStart prev plans =
        some (if p.end_datetime < nowDT then nowDT else p.end_datetime) := by
  intro plans
  induction plans with
  | nil => intro prev h; simp [firstOverlapped] at h
  | cons q rest ih =>
    intro prev h
    by_cases hc : q.start_datetime ≤ reqStart ∧ reqStart < q.end_datetime
    · have hq : q = p := by
        unfold firstOverlapped at h
        simp only [List.find?_cons, decide_eq_true (show _ from hc)] at h
        exact Option.some.inj h
      subst hq
      unfold snapStart
      rw [if_pos hc, if_pos (by exact hbegun)]
    · have h' : firstOverlapped reqStart rest = some p := by
        unfold firstOverlapped at h ⊢
        simpa only [List.find?_cons, decide_eq_false hc] using h
      unfold snapStart
      rw [if_neg hc]
      exact ih (some q) h'

theorem preview_ok_suggested (caster : Nat) (nowDT reqStart reqEnd : Int)
    (db : List Plan) (r : PreviewResult)
    (hok : preview_plan_insertion caster nowDT reqStart reqEnd db = .ok r) :
    r.suggested_start =
      (snapStart nowDT reqStart none (previewPlans caster db)).getD
        reqStart := by
  unfold preview_plan_insertion at hok
  dsimp only [] at hok
  split at hok
  · cases hok
  · split at hok
    · cases hok
    · split at hok
      · cases hok
      · split at hok
        · cases hok
        · cases hok
          rfl

/-- C8 amended.  The preview's begun-test is `start_datetime < now`, not
`actual_start`: whenever the requested start lies inside an existing slot
whose planned start is in the past, the suggested start is that slot's
`planned_end`, clamped up to now if it has already passed. -/
theorem preview_snap_when_overlapped_started (caster : Nat)
    (nowDT reqStart reqEnd : Int) (db : List Plan) (p : Plan)
    (r : PreviewResult)
    (hfind : firstOverlapped reqStart (previewPlans caster db) = some p)
    (hbegun : overlappedAlreadyStarted nowDT p = true)
    (hok : preview_plan_insertion caster nowDT reqStart reqEnd db = .ok r) :
    r.suggested_start =
      if p.end_datetime < nowDT then nowDT else p.end_datetime := by
  rw [preview_ok_suggested caster nowDT reqStart reqEnd db r hok,
    snapStart_of_begun nowDT reqStart p hbegun (previewPlans caster db) none
      hfind]
  rfl

theorem preview_snap_when_overlapped_started_witness :
    ({ requested_start := 120, requested_end := 130, suggested_start := 150,
       suggested_end := 160, shift_from := none, shift_delta := 0,
       affected := [] } : PreviewResult).suggested_start =
      if (150 : Int) < 100 then (100 : Int) else 150 :=
  preview_snap_when_overlapped_started 1 100 120 130 [cxPreviewPlan]
    cxPreviewPlan _ (by decide) (by decide) (by decide)

/-! ## Claim C1: preservation of the no-locked-overlap invariant -/

theorem intervalsOverlap_imp_sqlOverlap {S E s e : Int}
    (h : intervalsOverlap S E s e = true) : sqlOverlap s e S E = true := by
  simp only [intervalsOverlap, Bool.and_eq_true, decide_eq_true_eq] at h
  simp only [sqlOverlap]
  simp only [decide_eq_true_eq, Bool.or_eq_true, Bool.and_eq_true]
  omega

theorem noBoth_map {db : List Plan} {g : Plan → Plan}
    (hg : ∀ x ∈ db, ppcLocked (g x).status = true → g x = x)
    (h : noBothLockedOverlap db) : noBothLockedOverlap (db.map g) := by
  intro p hp q hq hap haq hlp hlq
  obtain ⟨x, hx, rfl⟩ := List.mem_map.mp hp
  obtain ⟨y, hy, rfl⟩ := List.mem_map.mp hq
  have hgx := hg x hx hlp
  have hgy := hg y hy hlq
  rw [hgx] at hap hlp ⊢
  rw [hgy] at haq hlq ⊢
  exact h x hx y hy hap haq hlp hlq

theorem noBoth_append_not_locked {db : List Plan} {newp : Plan}
    (hnp : ppcLocked newp.status = false) (h : noBothLockedOverlap db) :
    noBothLockedOverlap (db ++ [newp]) := by
  intro p hp q hq hap haq hlp hlq
  rcases List.mem_append.mp hp with hp' | hp' <;>
    rcases List.mem_append.mp hq with hq' | hq'
  · exact h p hp' q hq' hap haq hlp hlq
  · have : q = newp := by simpa using hq'
    rw [this, hnp] at hlq
    cases hlq
  · have : p = newp := by simpa using hp'
    rw [this, hnp] at hlp
    cases hlp
  · have h1 : p = newp := by simpa using hp'
    have h2 : q = newp := by simpa using hq'
    rw [h1, h2]
    simp [overlapPair]

theorem replaceByName_names (doc : Plan) (db : List Plan) :
    (replaceByName doc db).map Plan.name = db.map Plan.name := by
  unfold replaceByName
  rw [List.map_map]
  refine List.map_congr_left ?_
  intro x _
  by_cases h : (x.name == doc.name) = true
  · have hx : x.name = doc.name := by simpa using h
    simp [Function.comp, h, hx]
  · simp [Function.comp, h]

theorem noBoth_savePlanDoc {doc cp' : Plan} {db db1 : List Plan}
    (hok : savePlanDoc doc db = .ok (cp', db1))
    (h : noBothLockedOverlap db) : noBothLockedOverlap db1 := by
  obtain ⟨hcp', hdb1, _, hcheck⟩ := savePlanDoc_ok hok
  have hchk1 : (db.filter (lockedOverlapRow (setPlannedDuration doc))).isEmpty
      = true := by
    unfold check_caster_overlap at hcheck
    simp only [decide_eq_true_eq] at hcheck
    exact hcheck.1
  have hnone : ∀ y ∈ db, ¬ lockedOverlapRow cp' y = true := by
    intro y hy
    rw [hcp']
    exact List.filter_eq_nil_iff.mp (List.isEmpty_iff.mp hchk1) y hy
  subst hdb1
  unfold replaceByName
  intro p hp q hq hap haq hlp hlq
  obtain ⟨x, hx, rfl⟩ := List.mem_map.mp hp
  obtain ⟨y, hy, rfl⟩ := List.mem_map.mp hq
  by_cases hbx : (x.name == cp'.name) = true <;>
    by_cases hby : (y.name == cp'.name) = true
  · rw [if_pos hbx, if_pos hby]
    simp [overlapPair]
  · rw [if_pos hbx] at hlp hap ⊢
    rw [if_neg hby] at hlq haq ⊢
    intro hov
    have hyn : y.name ≠ cp'.name := fun he => hby (by simp [he])
    apply hnone y hy
    unfold lockedOverlapRow
    unfold overlapPair at hov
    simp only [Bool.and_eq_true, decide_eq_true_eq] at hov ⊢
    obtain ⟨hcaster, _, hiv⟩ := hov
    exact ⟨hyn, hcaster.symm, by simpa using hlq,
      by simpa [activeSlot] using haq,
      by simpa using intervalsOverlap_imp_sqlOverlap hiv⟩
  · rw [if_neg hbx] at hlp hap ⊢
    rw [if_pos hby] at hlq haq ⊢
    intro hov
    have hxn : x.name ≠ cp'.name := fun he => hbx (by simp [he])
    apply hnone x hx
    unfold lockedOverlapRow
    unfold overlapPair at hov
    simp only [Bool.and_eq_true, decide_eq_true_eq] at hov ⊢
    obtain ⟨hcaster, _, hiv⟩ := hov
    have hiv2 : intervalsOverlap cp'.start_datetime cp'.end_datetime
        x.start_datetime x.end_datetime = true := by
      unfold intervalsOverlap at hiv ⊢
      simp only [Bool.and_eq_true, decide_eq_true_eq] at hiv ⊢
      omega
    exact ⟨hxn, hcaster, by simpa using hlp,
      by simpa [activeSlot] using hap,
      by simpa using intervalsOverlap_imp_sqlOverlap hiv2⟩
  · rw [if_neg hbx] at hlp hap ⊢
    rw [if_neg hby] at hlq haq ⊢
    exact h x hx y hy hap haq hlp hlq

theorem not_locked_of_kioskShiftable {s : PlanStatus}
    (h : kioskShiftable s = true) : ppcLocked s = false := by
  cases s <;> simp_all [kioskShiftable, ppcLocked]

theorem noBoth_restack {db : List Plan} (current : Plan)
    (hnd : (db.map Plan.name).Nodup) (h : noBothLockedOverlap db) :
    noBothLockedOverlap (shift_future_plans_after current db) := by
  unfold shift_future_plans_after applyByName
  refine noBoth_map ?_ h
  intro x hx hlk
  have hap := shift_future_plans_after_apply current db hnd x hx
  cases hel : restackEligible current x with
  | false => exact hap.1 hel
  | true =>
    obtain ⟨q, hq, hrel⟩ := hap.2 hel
    rw [hq] at hlk ⊢
    rw [hrel.2.2.1, (restackEligible_true_iff.mp hel).2.2.2.1] at hlk
    simp [ppcLocked] at hlk

theorem noBoth_kiosk_shift {db : List Plan} (caster : Nat)
    (fromDT delta : Int) (excl : Option Nat) (h : noBothLockedOverlap db) :
    noBothLockedOverlap (shift_future_plans caster fromDT delta excl db) := by
  unfold shift_future_plans
  by_cases h0 : delta = 0
  · rw [if_pos h0]; exact h
  · rw [if_neg h0]
    refine noBoth_map ?_ h
    intro x hx hlk
    by_cases hc : kioskShiftSel caster fromDT x = true ∧ excl ≠ some x.name
    · rw [if_pos hc] at hlk ⊢
      have hst : (shiftWindow delta x).status = x.status := rfl
      rw [hst, not_locked_of_kioskShiftable
        (kioskShiftSel_true_iff.mp hc.1).2.1] at hlk
      cases hlk
    · rw [if_neg hc]

theorem noBoth_scheduler_map {db : List Plan} {caster planName : Nat}
    {fromDT delta : Int} {batches : List Batch}
    (h : noBothLockedOverlap db) :
    noBothLockedOverlap (db.map fun p =>
      if schedulerShiftSel caster fromDT p = true ∧ p.name ≠ planName ∧
          ¬ batchNotDraftSkip batches p = true then
        schedulerSaveShift delta p
      else p) := by
  refine noBoth_map ?_ h
  intro x hx hlk
  by_cases hc : schedulerShiftSel caster fromDT x = true ∧ x.name ≠ planName ∧
      ¬ batchNotDraftSkip batches x = true
  · rw [if_pos hc] at hlk ⊢
    have hst : (schedulerSaveShift delta x).status = x.status := by
      unfold schedulerSaveShift
      rw [(setPlannedDuration_fields _).2.2.1]
      rfl
    rw [hst, not_locked_of_kioskShiftable
      (schedulerShiftSel_true_iff.mp hc.1).2.2.1] at hlk
    cases hlk
  · rw [if_neg hc]

theorem noBoth_create (db : List Plan) (nowDT : Int) (newName caster : Nat)
    (s e : Int) (h : noBothLockedOverlap db) :
    noBothLockedOverlap
      (createdDb (create_plan db nowDT newName caster s e)) := by
  unfold create_plan
  split
  · exact h
  · split
    · exact h
    · split
      · exact h
      · dsimp only []
        cases hsw : (compute_shift_window_and_delta caster s e db).1 with
        | none =>
          simp only [hsw]
          cases hval : validatePlan
              { name := newName, caster := caster, start_datetime := s,
                end_datetime := e, planned_duration_minutes := none,
                status := .planned, docstatus := 0, melting_batch := none,
                actual_start := none, actual_end := none,
                melting_start := none } db with
          | error u => simp only [hval]; exact h
          | ok doc' =>
            simp only [hval]
            refine noBoth_append_not_locked ?_ h
            have := (validatePlan_ok hval).1
            rw [this]
            rw [show ({ setPlannedDuration _ with docstatus := 1 } : Plan).status
              = (setPlannedDuration _).status from rfl]
            rw [(setPlannedDuration_fields _).2.2.1]
            rfl
        | some f =>
          simp only [hsw]
          by_cases hpos : 0 < (compute_shift_window_and_delta caster s e db).2
          · rw [if_pos hpos]
            have hsh := noBoth_kiosk_shift caster f
              (compute_shift_window_and_delta caster s e db).2 none h
            cases hval : validatePlan
                { name := newName, caster := caster, start_datetime := s,
                  end_datetime := e, planned_duration_minutes := none,
                  status := .planned, docstatus := 0, melting_batch := none,
                  actual_start := none, actual_end := none,
                  melting_start := none }
                (shift_future_plans caster f
                  (compute_shift_window_and_delta caster s e db).2 none db) with
            | error u => simp only [hval]; exact hsh
            | ok doc' =>
              simp only [hval]
              refine noBoth_append_not_locked ?_ hsh
              have := (validatePlan_ok hval).1
              rw [this]
              rw [show ({ setPlannedDuration _ with docstatus := 1 } : Plan).status
                = (setPlannedDuration _).status from rfl]
              rw [(setPlannedDuration_fields _).2.2.1]
              rfl
          · rw [if_neg hpos]
            cases hval : validatePlan
                { name := newName, caster := caster, start_datetime := s,
                  end_datetime := e, planned_duration_minutes := none,
                  status := .planned, docstatus := 0, melting_batch := none,
                  actual_start := none, actual_end := none,
                  melting_start := none } db with
            | error u => simp only [hval]; exact h
            | ok doc' =>
              simp only [hval]
              refine noBoth_append_not_locked ?_ h
              have := (validatePlan_ok hval).1
              rw [this]
              rw [show ({ setPlannedDuration _ with docstatus := 1 } : Plan).status
                = (setPlannedDuration _).status from rfl]
              rw [(setPlannedDuration_fields _).2.2.1]
              rfl

theorem noBoth_start_melting {db db' : List Plan} {planName : Nat}
    {mb : Option Nat} {ms : Int}
    (hnd : (db.map Plan.name).Nodup) (h : noBothLockedOverlap db)
    (hok : start_melting_for_plan db planName mb ms = .ok db') :
    noBothLockedOverlap db' := by
  unfold start_melting_for_plan at hok
  split at hok
  · cases hok
  · dsimp only [] at hok
    split at hok
    · cases hok
    · rename_i cp2 db1 heqSave
      cases hok
      obtain ⟨_, hdb1, _, _⟩ := savePlanDoc_ok heqSave
      refine noBoth_restack cp2 ?_ (noBoth_savePlanDoc heqSave h)
      rw [hdb1, replaceByName_names]
      exact hnd

theorem noBoth_mark_complete {db db' : List Plan} {planName : Nat} {t : Int}
    (hnd : (db.map Plan.name).Nodup) (h : noBothLockedOverlap db)
    (hok : mark_casting_complete db planName t = .ok db') :
    noBothLockedOverlap db' := by
  unfold mark_casting_complete at hok
  split at hok
  · cases hok
  · dsimp only [] at hok
    split at hok
    · cases hok
    · rename_i cp2 db1 heqSave
      cases hok
      obtain ⟨_, hdb1, _, _⟩ := savePlanDoc_ok heqSave
      refine noBoth_restack cp2 ?_ (noBoth_savePlanDoc heqSave h)
      rw [hdb1, replaceByName_names]
      exact hnd

theorem noBoth_mark_melting_started {db db' : List Plan} {b : Batch}
    {nowTS : Int} {batches : List Batch}
    (h : noBothLockedOverlap db)
    (hok : mark_melting_started_if_first_time b nowTS db batches = .ok db') :
    noBothLockedOverlap db' := by
  unfold mark_melting_started_if_first_time at hok
  split at hok
  · cases hok; exact h
  · split at hok
    · cases hok
    · split at hok
      · cases hok; exact h
      · dsimp only [] at hok
        split at hok
        · cases hok
        · rename_i cp2 db1 heqSave
          have hdb1 : noBothLockedOverlap db1 := noBoth_savePlanDoc heqSave h
          split at hok
          · cases hok; exact hdb1
          · unfold shift_future_plans_for_caster at hok
            split at hok
            · cases hok; exact hdb1
            · split at hok
              · cases hok
              · cases hok
                exact noBoth_scheduler_map hdb1

/-- C1 amended.  The scheduler operations preserve the invariant restricted
to pairs of slots that are *both* locked: locked slots are never moved, the
slots the shifters move stay movable, and the one document a re-anchor or
completion turns locked is validated against every locked slot before it is
saved (the operation aborts, leaving the timeline unchanged, otherwise).
The invariant over pairs with only one locked member is not preserved (see
the counterexample: an insertion's uniform shift pushes a movable slot onto
a locked one without any check). -/
theorem scheduler_ops_preserve_no_both_locked_overlap (db : List Plan)
    (hnd : (db.map Plan.name).Nodup) (hinv : noBothLockedOverlap db) :
    (∀ current : Plan,
      noBothLockedOverlap (shift_future_plans_after current db)) ∧
    (∀ (caster : Nat) (fromDT delta : Int) (excl : Option Nat),
      noBothLockedOverlap (shift_future_plans caster fromDT delta excl db)) ∧
    (∀ (nowDT : Int) (newName caster : Nat) (s e : Int),
      noBothLockedOverlap
        (createdDb (create_plan db nowDT newName caster s e))) ∧
    (∀ (planName : Nat) (mb : Option Nat) (ms : Int) (db' : List Plan),
      start_melting_for_plan db planName mb ms = .ok db' →
      noBothLockedOverlap db') ∧
    (∀ (planName : Nat) (t : Int) (db' : List Plan),
      mark_casting_complete db planName t = .ok db' →
      noBothLockedOverlap db') ∧
    (∀ (b : Batch) (nowTS : Int) (batches : List Batch) (db' : List Plan),
      mark_melting_started_if_first_time b nowTS db batches = .ok db' →
      noBothLockedOverlap db') :=
  ⟨fun current => noBoth_restack current hnd hinv,
   fun caster fromDT delta excl =>
     noBoth_kiosk_shift caster fromDT delta excl hinv,
   fun nowDT newName caster s e =>
     noBoth_create db nowDT newName caster s e hinv,
   fun _ _ _ _ hok => noBoth_start_melting hnd hinv hok,
   fun _ _ _ hok => noBoth_mark_complete hnd hinv hok,
   fun _ _ _ _ hok => noBoth_mark_melting_started hinv hok⟩

theorem scheduler_ops_preserve_witness :
    noBothLockedOverlap
      (createdDb (create_plan [cxMovableA, cxLockedL] 0 9 1 600 690)) :=
  (scheduler_ops_preserve_no_both_locked_overlap [cxMovableA, cxLockedL]
    (by decide) (by decide)).2.2.1 0 9 1 600 690

/-- C1 counterexample.  Starting from a timeline satisfying the full
invariant (no overlap among pairs with at least one locked slot),
`create_plan` succeeds and leaves the movable plan `cxMovableA`
uniform-shifted onto the locked plan `cxLockedL`: the invariant as claimed
does not survive the insertion. -/
theorem create_plan_breaks_locked_overlap_invariant :
    noLockedOverlap [cxMovableA, cxLockedL] ∧
    create_plan [cxMovableA, cxLockedL] 0 9 1 600 690 =
      .created 9 cxInsertedDb ∧
    ¬ noLockedOverlap cxInsertedDb := by
  decide

/-! ## Claim C7: idempotence of the cascading re-stack -/

theorem wf_window {p : Plan} (h : wfB p = true) :
    p.start_datetime < p.end_datetime := by
  unfold wfB at h
  rw [Bool.and_eq_true, decide_eq_true_eq] at h
  exact h.1

theorem effDur_pos_of_wf {p : Plan} (h : wfB p = true) : 0 < effDur p := by
  unfold wfB at h
  rw [Bool.and_eq_true, decide_eq_true_eq] at h
  obtain ⟨h1, h2⟩ := h
  cases hpd : p.planned_duration_minutes with
  | none => simp only [effDur, hpd]; omega
  | some d =>
    simp only [hpd, decide_eq_true_eq] at h2
    simp only [effDur, hpd]
    rw [if_neg (show ¬ d = 0 by omega)]
    exact h2

theorem restackWalk_bound {ps : List Plan} (hwf : ∀ p ∈ ps, wfB p = true) :
    ∀ c, ∀ q ∈ restackWalk c ps, c ≤ q.start_datetime ∧
      q.start_datetime < q.end_datetime := by
  induction ps with
  | nil => intro c q hq; cases hq
  | cons p rest ih =>
    intro c q hq
    have hwp := hwf p (List.mem_cons_self p rest)
    have hwrest : ∀ x ∈ rest, wfB x = true :=
      fun x hx => hwf x (List.mem_cons_of_mem p hx)
    unfold restackWalk at hq
    obtain ⟨_, _, _, _, _, h6, h7⟩ := pushPlan_fields p c
    have hd := effDur_pos_of_wf hwp
    have hw := wf_window hwp
    by_cases hc : p.start_datetime < c
    · rw [if_pos hc] at hq
      rcases List.mem_cons.mp hq with rfl | hq'
      · constructor <;> omega
      · have := ih hwrest (pushPlan p c).end_datetime q hq'
        constructor <;> omega
    · rw [if_neg hc] at hq
      rcases List.mem_cons.mp hq with rfl | hq'
      · exact ⟨by omega, hw⟩
      · have := ih hwrest p.end_datetime q hq'
        constructor <;> omega

theorem restackWalk_pairwise_lt {ps : List Plan}
    (hwf : ∀ p ∈ ps, wfB p = true) (c : Int) :
    (restackWalk c ps).Pairwise startLT := by
  induction ps generalizing c with
  | nil => exact List.Pairwise.nil
  | cons p rest ih =>
    have hwp := hwf p (List.mem_cons_self p rest)
    have hwrest : ∀ x ∈ rest, wfB x = true :=
      fun x hx => hwf x (List.mem_cons_of_mem p hx)
    obtain ⟨_, _, _, _, _, h6, h7⟩ := pushPlan_fields p c
    have hd := effDur_pos_of_wf hwp
    have hw := wf_window hwp
    unfold restackWalk
    by_cases hc : p.start_datetime < c
    · rw [if_pos hc]
      refine List.Pairwise.cons ?_ (ih hwrest _)
      intro q hq
      have hb := restackWalk_bound hwrest (pushPlan p c).end_datetime q hq
      unfold startLT
      omega
    · rw [if_neg hc]
      refine List.Pairwise.cons ?_ (ih hwrest _)
      intro q hq
      have hb := restackWalk_bound hwrest p.end_datetime q hq
      unfold startLT
      omega

theorem restackWalk_eq_of_chain {ps : List Plan} :
    ∀ c, chainFrom c ps = true → restackWalk c ps = ps := by
  induction ps with
  | nil => intro c _; rfl
  | cons p rest ih =>
    intro c hc
    unfold chainFrom at hc
    rw [Bool.and_eq_true, decide_eq_true_eq] at hc
    unfold restackWalk
    rw [if_neg (by omega)]
    rw [ih p.end_datetime hc.2]

theorem map_getD_find?_eq {l m : List Plan}
    (hf : List.Forall₂ (fun p q => q.name = p.name) l m)
    (hnd : (l.map Plan.name).Nodup) :
    l.map (fun x => (m.find? fun y => y.name == x.name).getD x) = m := by
  induction hf with
  | nil => rfl
  | @cons p₀ q₀ l' m' h₀ hrest ih =>
    have hnd' : (p₀.name :: l'.map Plan.name).Nodup := by simpa using hnd
    simp only [List.map_cons]
    congr 1
    · simp [List.find?_cons, h₀]
    · have hskip : ∀ x ∈ l',
          ((q₀ :: m').find? fun y => y.name == x.name) =
            (m'.find? fun y => y.name == x.name) := by
        intro x hx
        have hne : (q₀.name == x.name) = false := by
          rw [beq_eq_false_iff_ne, h₀]
          intro he
          exact (List.nodup_cons.mp hnd').1
            (he ▸ List.mem_map_of_mem Plan.name hx)
        simp [List.find?_cons, hne]
      rw [List.map_congr_left (fun x hx => by rw [hskip x hx])]
      exact ih (List.nodup_cons.mp hnd').2

theorem eq_of_perm_sorted_strict {l₁ l₂ : List Plan}
    (hp : List.Perm l₁ l₂) (hs : List.Sorted startLE l₁)
    (ht : l₂.Pairwise startLT) : l₁ = l₂ := by
  have hnd₂ : (l₂.map Plan.start_datetime).Nodup := by
    rw [List.Nodup, List.pairwise_map]
    exact ht.imp fun h => ne_of_lt h
  have hnd₁ : (l₁.map Plan.start_datetime).Nodup :=
    ((hp.map Plan.start_datetime).nodup_iff).mpr hnd₂
  have hne₁ : l₁.Pairwise
      (fun a b => a.start_datetime ≠ b.start_datetime) := by
    rw [List.Nodup, List.pairwise_map] at hnd₁
    exact hnd₁
  have hlt₁ : l₁.Pairwise startLT := by
    refine (List.Pairwise.and hs hne₁).imp ?_
    intro a b hab
    exact lt_of_le_of_ne hab.1 hab.2
  exact List.eq_of_perm_of_sorted hp hlt₁ ht

/-- C7 amended.  On any timeline whose slots all have positive windows and
positive stored planned durations (which the document validation maintains),
a second run of `shift_future_plans_after` with no intervening change moves
nothing: it reproduces the first run's output exactly.  Degenerate stored
durations break this (see the counterexample). -/
theorem restack_idempotent (current : Plan) (db : List Plan)
    (hnd : (db.map Plan.name).Nodup) (hwf : ∀ p ∈ db, wfB p = true) :
    shift_future_plans_after current (shift_future_plans_after current db) =
      shift_future_plans_after current db := by
  have hgname : ∀ x ∈ db,
      (((restackMoved current db).find? fun y => y.name == x.name).getD
        x).name = x.name := by
    intro x hx
    have h := shift_future_plans_after_apply current db hnd x hx
    cases hel : restackEligible current x with
    | false => rw [h.1 hel]
    | true =>
      obtain ⟨q, hq, hrel⟩ := h.2 hel
      rw [hq, hrel.1]
  have hnames : (shift_future_plans_after current db).map Plan.name =
      db.map Plan.name := by
    show (db.map _).map Plan.name = db.map Plan.name
    rw [List.map_map]
    exact List.map_congr_left fun x hx => hgname x hx
  have hnd' : ((shift_future_plans_after current db).map Plan.name).Nodup :=
    by rw [hnames]; exact hnd
  have hPg : ∀ x ∈ db, restackEligible current
      (((restackMoved current db).find? fun y => y.name == x.name).getD x) =
      restackEligible current x := by
    intro x hx
    have h := shift_future_plans_after_apply current db hnd x hx
    cases hel : restackEligible current x with
    | false => rw [h.1 hel]; exact hel
    | true =>
      obtain ⟨q, hq, hrel⟩ := h.2 hel
      rw [hq]
      rw [restackEligible_true_iff]
      obtain ⟨he1, he2, he3, he4, he5⟩ := restackEligible_true_iff.mp hel
      refine ⟨by rw [hrel.1]; exact he1, by rw [hrel.2.1]; exact he2, ?_,
        by rw [hrel.2.2.1]; exact he4, by rw [hrel.2.2.2.1]; exact he5⟩
      rcases hrel.2.2.2.2.2 with rfl | ⟨hlt, _⟩
      · exact he3
      · omega
  have hfilter : (shift_future_plans_after current db).filter
      (restackEligible current) =
      (db.filter (restackEligible current)).map
        (fun x => ((restackMoved current db).find? fun y =>
          y.name == x.name).getD x) := by
    show ((db.map _).filter _) = _
    rw [List.filter_map]
    congr 1
    exact List.filter_congr fun x hx => hPg x hx
  have hpair : List.Forall₂ (fun p q => q.name = p.name)
      (sortByStart (db.filter (restackEligible current)))
      (restackMoved current db) :=
    (restackMoved_pairs current db).imp fun _ _ h => h.1
  have hndelig :
      ((sortByStart (db.filter (restackEligible current))).map
        Plan.name).Nodup :=
    nodup_names_sortByStart_filter _ db hnd
  have hperm : List.Perm
      (sortByStart ((shift_future_plans_after current db).filter
        (restackEligible current)))
      (restackMoved current db) := by
    rw [hfilter]
    refine (List.perm_insertionSort startLE _).trans ?_
    have p2 : (db.filter (restackEligible current)).Perm
        (sortByStart (db.filter (restackEligible current))) :=
      (List.perm_insertionSort startLE _).symm
    have p3 := p2.map (fun x => ((restackMoved current db).find? fun y =>
      y.name == x.name).getD x)
    rw [map_getD_find?_eq hpair hndelig] at p3
    exact p3
  have hwfE : ∀ p ∈ sortByStart (db.filter (restackEligible current)),
      wfB p = true := by
    intro p hp
    exact hwf p (List.mem_filter.mp (mem_sortByStart.mp hp)).1
  have hPWlt : (restackMoved current db).Pairwise startLT := by
    unfold restackMoved
    exact restackWalk_pairwise_lt hwfE current.end_datetime
  have heq2 : sortByStart ((shift_future_plans_after current db).filter
      (restackEligible current)) = restackMoved current db :=
    eq_of_perm_sorted_strict hperm
      (List.sorted_insertionSort startLE _) hPWlt
  have hchain : chainFrom current.end_datetime (restackMoved current db)
      = true := by
    unfold restackMoved
    exact chainFrom_restackWalk _ _
  have hmoved2 : restackMoved current (shift_future_plans_after current db) =
      restackMoved current db := by
    unfold restackMoved
    rw [heq2]
    exact restackWalk_eq_of_chain current.end_datetime hchain
  show applyByName
      (restackMoved current (shift_future_plans_after current db))
      (shift_future_plans_after current db) =
    shift_future_plans_after current db
  rw [hmoved2]
  unfold applyByName
  refine Eq.trans (List.map_congr_left ?_) (List.map_id _)
  intro x hx
  cases hfx : (restackMoved current db).find? (fun y => y.name == x.name) with
  | none => rfl
  | some q =>
    have hqm : q ∈ restackMoved current db := List.mem_of_find?_eq_some hfx
    have hqdb' : q ∈ shift_future_plans_after current db := by
      have hq2 : q ∈ sortByStart ((shift_future_plans_after current
          db).filter (restackEligible current)) := by
        rw [heq2]; exact hqm
      exact (List.mem_filter.mp (mem_sortByStart.mp hq2)).1
    have hqn : q.name = x.name := by simpa using List.find?_some hfx
    have := List.inj_on_of_nodup_map hnd' hqdb' hx hqn
    simpa using this

/-- C7 counterexample.  With a degenerate stored duration (`-3`) the first
pass produces a slot whose end precedes its start; the second pass then
finds the slots in a different start order and pushes them again, so the
two passes do not agree. -/
theorem restack_second_pass_moves_with_negative_duration :
    shift_future_plans_after cxAnchor7
        (shift_future_plans_after cxAnchor7 [cxNegDur, cxAfterNeg]) ≠
      shift_future_plans_after cxAnchor7 [cxNegDur, cxAfterNeg] := by
  decide

theorem restack_idempotent_witness :
    shift_future_plans_after cxAnchor5
        (shift_future_plans_after cxAnchor5 [cxAnchor5, cxWfMovable]) =
      shift_future_plans_after cxAnchor5 [cxAnchor5, cxWfMovable] :=
  restack_idempotent cxAnchor5 [cxAnchor5, cxWfMovable] (by decide) (by decide)
